import Mathlib

/-!
Verification of the UEBA → MITRE ATT&CK mapper (`Mitre_mapper/mapper.py`).

Shallow embedding conventions:
* Python floats are modelled by exact rationals (`ℚ`); every constant that
  appears in the source (0.9, 0.6, 4.0, …) is exactly representable, and the
  source only compares, divides by constants and takes `min`, so the rational
  model is faithful for the properties below.
* A JSON field that may be missing is an `Option`; `Option.getD` models
  `dict.get(key, default)`.
* Fallible code (a Python expression that can raise an uncaught exception)
  returns an `Option`: `none` models the exception propagating.
* The diagnostic `description` and `evidence` fields of a technique match are
  not modelled; no property below mentions them.
-/

/-- A technique match as built by the mapper: ATT&CK id, name, confidence and
the name of the rule that fired (`rule_matched`).  Mirrors the dict literals in
`mapper.py`; the free-text `description`/`evidence` diagnostics are elided. -/
structure TechniqueMatch where
  id : String
  name : String
  confidence : ℚ
  rule_matched : String
deriving DecidableEq, Repr

/-- A sequence-source (Markov) record, i.e. one JSON line of the Markov file.
`sequence = ""` models an absent (or empty) `sequence` field, exactly as
`sequence_data.get('sequence', '')` followed by Python truthiness does;
`user_id = none` models an absent `user_id`. -/
structure SequenceRecord where
  user_id : Option String := none
  sequence : String := ""
  actions : List String := []
  score : Option ℚ := none
deriving DecidableEq, Repr

/-- A map-source (SOM) record: one element of the SOM results array. -/
structure SomRecord where
  user_id : Option String := none
  attack_score : Option ℚ := none
  benign_score : Option ℚ := none
  total_epochs : Option ℚ := none
  flagged_epochs : Option ℚ := none
deriving DecidableEq, Repr

/-- The action list of a sequence record:
`sequence = [a.strip() for a in sequence_str.split('->')] if sequence_str
else sequence_data.get('actions', [])` from `_map_markov_generic`. -/
def getActions (r : SequenceRecord) : List String :=
  if r.sequence ≠ "" then (r.sequence.splitOn "->").map String.trim
  else r.actions

/-- The inline sequence-source anomaly normalisation of `_map_markov_generic`
(lines 34–41): absent score ↦ 0, zero score ↦ 1 (inverted, maximal anomaly),
positive score ↦ `min 1 (score/4)`, negative score ↦ 0. -/
def markovAnomalyScore (score : Option ℚ) : ℚ :=
  match score with
  | none => 0
  | some s => if s = 0 then 1 else if 0 < s then min 1 (s / 4) else 0

/-- Source function `calculate_risk_score` (mapper.py lines 128–137): the standalone copy of
the sequence-source normaliser used by the per-user risk reducer. -/
def calculate_risk_score (r : SequenceRecord) : ℚ :=
  match r.score with
  | none => 0
  | some s => if s = 0 then 1 else if 0 < s then min 1 (s / 4) else 0

/-- Python `str.lower()`: lowercase every character.  This equals
`String.toLower` (which maps `Char.toLower` over the characters) but is stated
directly on the character list so that it evaluates by kernel reduction. -/
def lowerStr (s : String) : String :=
  ⟨s.data.map Char.toLower⟩

/-- Test `'login' in action.lower()`: case-insensitive substring test. -/
def containsLogin (action : String) : Bool :=
  decide ("login".toList <:+: (lowerStr action).toList)

/-- Whether the suspicious-login rule fires:
`any('login' in action.lower() for action in sequence)`. -/
def loginFires (sequence : List String) : Bool :=
  sequence.any containsLogin

/-- The noise actions excluded from the repetition count. -/
def noiseActions : List String := ["auth_login", "auth_logout", "sys_windows_event"]

/-- Whether the repetitive-action rule fires (lines 56–72): needs a sequence of
length ≥ 3 and some non-noise lowercased action whose occurrence count is at
least 60% of the sequence length.  The Python code iterates a counting dict and
breaks on the first qualifying action; since the appended match does not depend
on which action qualified, firing is equivalent to this existence test. -/
def repetitiveFires (sequence : List String) : Bool :=
  let lows := (sequence.map lowerStr).filter (fun a => ¬ noiseActions.contains a)
  decide (3 ≤ sequence.length) &&
    lows.any (fun a => decide ((sequence.length : ℚ) * (6/10) ≤ (lows.count a : ℚ)))

/-- The T1078 match appended by the suspicious-login rule. -/
def loginTechnique (anomaly_score : ℚ) : TechniqueMatch :=
  ⟨"T1078", "Valid Accounts", min (7/10) anomaly_score, "markov_suspicious_login_pattern"⟩

/-- The T1041 match appended by the repetitive-action rule. -/
def repTechnique (anomaly_score : ℚ) : TechniqueMatch :=
  ⟨"T1041", "Exfiltration Over Command and Control Channel", min (6/10) anomaly_score,
    "markov_repetitive_action_pattern"⟩

/-- The TA0009 fallback match for maximal anomaly with no other rule fired. -/
def fallbackTechnique : TechniqueMatch :=
  ⟨"TA0009", "Collection", 55/100, "markov_max_anomaly_score_fallback"⟩

/-- Source method `UEBAMitreMapper._map_markov_generic` (lines 28–84): the sequence-source
rule engine.  Gate at anomaly score 0.9, then the login rule, the repetition
rule, and the maximal-anomaly fallback when nothing else fired. -/
def mapMarkovGeneric (r : SequenceRecord) : List TechniqueMatch :=
  let sequence := getActions r
  let anomaly_score := markovAnomalyScore r.score
  if anomaly_score < 9/10 then []
  else
    let t1 := if loginFires sequence then [loginTechnique anomaly_score] else []
    let t2 := if repetitiveFires sequence then [repTechnique anomaly_score] else []
    let ts := t1 ++ t2
    if anomaly_score = 1 ∧ ts = [] then [fallbackTechnique] else ts

/-- Source method `UEBAMitreMapper.map_markov_sequence` delegates to
`_map_markov_generic`. -/
def map_markov_sequence (r : SequenceRecord) : List TechniqueMatch :=
  mapMarkovGeneric r

/-- The SOM anomaly metric `attack_score / total_epochs` (line 93).
`total_epochs` defaults to 1 only when the field is absent; a present zero
makes the Python division raise `ZeroDivisionError`, modelled as `none`. -/
def somAnomalyMetric (r : SomRecord) : Option ℚ :=
  let total_epochs := r.total_epochs.getD 1
  if total_epochs = 0 then none
  else some (r.attack_score.getD 0 / total_epochs)

/-- The T1070.004 match of the high-attack-score rule. -/
def somHighTechnique (anomaly_metric : ℚ) : TechniqueMatch :=
  ⟨"T1070.004", "Indicator Removal: File Deletion", min (9/10) (5/10 + anomaly_metric),
    "som_high_attack_score"⟩

/-- The fixed-confidence T1090 match of the always-flagged-zero-attack rule. -/
def proxyTechnique : TechniqueMatch :=
  ⟨"T1090", "Proxy", 65/100, "som_always_flagged_no_attack_score"⟩

/-- The T1078 match of the mixed attack/benign rule. -/
def somMixedTechnique (anomaly_metric : ℚ) : TechniqueMatch :=
  ⟨"T1078", "Valid Accounts", min (8/10) (5/10 + anomaly_metric), "som_mixed_high_attack_score"⟩

/-- Source method `UEBAMitreMapper.map_som_results` (lines 86–126).  Returns `none` when the
metric division raised (total_epochs present and zero), otherwise the list of
matches from the three independent map-source rules in source order. -/
def map_som_results (r : SomRecord) : Option (List TechniqueMatch) :=
  let attack_score := r.attack_score.getD 0
  let benign_score := r.benign_score.getD 0
  let total_epochs := r.total_epochs.getD 1
  match somAnomalyMetric r with
  | none => none
  | some anomaly_metric =>
    let t1 := if 3/10 ≤ anomaly_metric then [somHighTechnique anomaly_metric] else []
    let t2 := if r.flagged_epochs.getD 0 = total_epochs ∧ attack_score = 0
              then [proxyTechnique] else []
    let t3 := if 0 < attack_score ∧ 0 < benign_score ∧ benign_score < attack_score
              then [somMixedTechnique anomaly_metric] else []
    some (t1 ++ t2 ++ t3)

/-- A detection entry as appended to the report list (`report_entry` dicts in
`process_markov_file` / `process_som_file`); the `raw_data` echo of the input
record is elided, no property below mentions it. -/
structure DetectionEntry where
  sequence_id : String
  user_id : String
  source : String
  detected_techniques : List TechniqueMatch
deriving DecidableEq, Repr

/-- Lookup in an insertion-ordered association list, modelling Python
`dict` access `d[k]` / `k in d`. -/
def dictFind (u : String) : List (String × ℚ × SequenceRecord) → Option (ℚ × SequenceRecord)
  | [] => none
  | (k, v) :: rest => if k = u then some v else dictFind u rest

/-- Assignment `d[k] = v` on an insertion-ordered association list: updates in
place when the key is present, appends at the end otherwise — exactly Python
dict semantics. -/
def dictSet (u : String) (v : ℚ × SequenceRecord) :
    List (String × ℚ × SequenceRecord) → List (String × ℚ × SequenceRecord)
  | [] => [(u, v)]
  | (k, w) :: rest => if k = u then (k, v) :: rest else (k, w) :: dictSet u v rest

/-- One iteration of the per-user reduction loop of `process_markov_file`
(lines 164–176): skip records with a falsy `user_id` (absent or empty string),
otherwise keep the record iff the user is new or its risk is strictly greater
than the stored best.  The stored `original_line_num` diagnostic is elided. -/
def reduceStep (m : List (String × ℚ × SequenceRecord)) (r : SequenceRecord) :
    List (String × ℚ × SequenceRecord) :=
  match r.user_id with
  | none => m
  | some u =>
    if u = "" then m
    else
      let current_risk := calculate_risk_score r
      match dictFind u m with
      | none => dictSet u (current_risk, r) m
      | some best => if best.1 < current_risk then dictSet u (current_risk, r) m else m

/-- The whole per-user reduction pass: `riskiest_sequences_by_user` after the
loop over all (well-formed) lines of the Markov file. -/
def reduceBatch (recs : List SequenceRecord) : List (String × ℚ × SequenceRecord) :=
  recs.foldl reduceStep []

/-- Sequence id `f"Markov_User_\x7bi+1\x7d_TopRisk"` for 0-based position `i`. -/
def markovSeqId (i : ℕ) : String :=
  "Markov_User_" ++ toString (i + 1) ++ "_TopRisk"

/-- The second loop of `process_markov_file` (lines 188–203): enumerate the
reduced per-user dict, run the rule engine, and append an entry exactly when it
produced at least one match. -/
def processMarkovAux : ℕ → List (String × ℚ × SequenceRecord) → List DetectionEntry
  | _, [] => []
  | i, (u, _, data) :: rest =>
    let techniques := map_markov_sequence data
    if techniques = [] then processMarkovAux (i + 1) rest
    else ⟨markovSeqId i, u, "markov", techniques⟩ :: processMarkovAux (i + 1) rest

/-- The detection entries `process_markov_file` appends to the report list for
a given batch of parsed sequence records. -/
def processMarkovEntries (recs : List SequenceRecord) : List DetectionEntry :=
  processMarkovAux 0 (reduceBatch recs)

/-- Sequence id `f"SOM_User_\x7bi+1\x7d"` for 0-based position `i`. -/
def somSeqId (i : ℕ) : String :=
  "SOM_User_" ++ toString (i + 1)

/-- The loop of `process_som_file` (lines 219–232): run the SOM rule engine on
each record in order, appending an entry when it produced matches.  The second
component is `true` when a record made `map_som_results` raise
(`ZeroDivisionError`, uncaught there): the loop stops, the entries appended so
far stay in the report list, and the exception propagates out of the run. -/
def processSomAux : ℕ → List SomRecord → List DetectionEntry × Bool
  | _, [] => ([], false)
  | i, r :: rest =>
    match map_som_results r with
    | none => ([], true)
    | some techniques =>
      let next := processSomAux (i + 1) rest
      if techniques = [] then next
      else (⟨somSeqId i, r.user_id.getD "N/A", "som", techniques⟩ :: next.1, next.2)

/-- The detection entries `process_som_file` appends, paired with the
crashed flag. -/
def processSomRun (recs : List SomRecord) : List DetectionEntry × Bool :=
  processSomAux 0 recs

/-- The observable states of the persisted report file when
`load_existing_report` runs, each mapping to one concrete Python scenario:
* `missing` — `os.path.exists` is false;
* `sizeZero` — the file exists with `os.path.getsize == 0`;
* `invalidJson` — the file exists, is non-empty, and `json.load` raises
  `json.JSONDecodeError`;
* `readFault` — the file exists and is non-empty, but opening or reading it
  raises an error that is neither `FileNotFoundError` nor `JSONDecodeError`
  (e.g. `PermissionError`, or `UnicodeDecodeError` on undecodable bytes);
* `parsed l` — the file exists, is non-empty, and parses as the JSON array
  `l`. -/
inductive ReportFileState where
  | missing
  | sizeZero
  | invalidJson
  | readFault
  | parsed (l : List DetectionEntry)
deriving DecidableEq, Repr

/-- Source function `load_existing_report` (lines 139–148).  `some l` is a normal return of
`l`; `none` models an exception escaping the function (the `except` clause
catches only `FileNotFoundError` and `json.JSONDecodeError`). -/
def load_existing_report : ReportFileState → Option (List DetectionEntry)
  | .missing => some []
  | .sizeZero => some []
  | .invalidJson => some []
  | .readFault => none
  | .parsed l => some l

/-- The merge-and-write tail of `__main__` (lines 255–271) given the loaded
report and the two parsed input batches.  Result:
* `none` — the run crashed (SOM processing raised) before the write decision;
* `some none` — the run completed and did not touch the report file;
* `some (some final)` — the run completed and rewrote the file with `final`.
The write happens exactly when `len(final_report) > initial_report_size`, and
the in-memory report only ever grows by appends. -/
def mergeRun (loaded : List DetectionEntry) (markovRecs : List SequenceRecord)
    (somRecs : List SomRecord) : Option (Option (List DetectionEntry)) :=
  let afterMarkov := loaded ++ processMarkovEntries markovRecs
  let som := processSomRun somRecs
  let final := afterMarkov ++ som.1
  if som.2 then none
  else if loaded.length < final.length then some (some final) else some none

/-- A SOM record whose `total_epochs` field is present and zero. -/
def zeroEpochRecord : SomRecord :=
  { attack_score := some 1, total_epochs := some 0, flagged_epochs := some 1 }

/-- A SOM record satisfying the always-flagged-zero-attack condition while its
`total_epochs` field is a present zero. -/
def alwaysFlaggedZeroEpochs : SomRecord :=
  { attack_score := some 0, total_epochs := some 0, flagged_epochs := some 0 }

/-- A one-action sequence record with a login action and model score zero. -/
def loginZeroRecord : SequenceRecord :=
  { user_id := some "u", actions := ["login"], score := some 0 }

/-- How the stored best entry for one fixed user evolves when one more record
of that user arrives in the reduction loop (`none` = user unseen so far):
first record is kept, later ones only on a strictly greater risk score. -/
def stepU (o : Option (ℚ × SequenceRecord)) (r : SequenceRecord) :
    Option (ℚ × SequenceRecord) :=
  match o with
  | none => some (calculate_risk_score r, r)
  | some best =>
    if best.1 < calculate_risk_score r then some (calculate_risk_score r, r) else some best

/-- The records of a batch carrying a given user identifier. -/
def userRecords (u : String) (recs : List SequenceRecord) : List SequenceRecord :=
  recs.filter (fun r => decide (r.user_id = some u))

/-- Modelled from the spec (§4.3, refinement target for the reducer): among a
list of records, the record with the strictly maximal risk score, the
first-encountered one retained on ties. -/
def specRetained : List SequenceRecord → Option SequenceRecord
  | [] => none
  | r :: rs => some (rs.foldl
      (fun best x => if calculate_risk_score best < calculate_risk_score x then x else best) r)

/-- C1: the sequence-source anomaly normalizer maps an absent score to 0, a
zero score to exactly 1, and a positive score to `min 1 (score/4)`, which is
monotonically non-decreasing in the score; the standalone
`calculate_risk_score` and the inline normalisation of `_map_markov_generic`
agree. -/
theorem risk_normalizer_spec (r : SequenceRecord) :
    (r.score = none → calculate_risk_score r = 0) ∧
    (r.score = some 0 → calculate_risk_score r = 1) ∧
    (∀ s : ℚ, r.score = some s → 0 < s → calculate_risk_score r = min 1 (s / 4)) ∧
    (∀ s₁ s₂ : ℚ, 0 < s₁ → s₁ ≤ s₂ →
      markovAnomalyScore (some s₁) ≤ markovAnomalyScore (some s₂)) ∧
    markovAnomalyScore r.score = calculate_risk_score r := by
  refine ⟨?_, ?_, ?_, ?_, ?_⟩
  · intro h; simp [calculate_risk_score, h]
  · intro h; simp [calculate_risk_score, h]
  · intro s hs hpos
    simp only [calculate_risk_score, hs]
    rw [if_neg (ne_of_gt hpos), if_pos hpos]
  · intro s₁ s₂ h₁ h₁₂
    have h₂ : 0 < s₂ := lt_of_lt_of_le h₁ h₁₂
    simp only [markovAnomalyScore]
    rw [if_neg (ne_of_gt h₁), if_pos h₁, if_neg (ne_of_gt h₂), if_pos h₂]
    exact min_le_min le_rfl (by linarith)
  · cases hr : r.score <;> simp [markovAnomalyScore, calculate_risk_score, hr]

/-- Witness for `risk_normalizer_spec` at a record with score 0. -/
theorem risk_normalizer_spec_witness :
    calculate_risk_score { score := some 0 } = 1 :=
  (risk_normalizer_spec { score := some 0 }).2.1 rfl

/-- C2: whenever the normalised anomaly score of a sequence record is strictly
below 0.9, `map_markov_sequence` returns no matches, whatever the actions. -/
theorem markov_gate_below_point_nine (r : SequenceRecord)
    (h : markovAnomalyScore r.score < 9/10) :
    map_markov_sequence r = [] := by
  simp only [map_markov_sequence, mapMarkovGeneric]
  rw [if_pos h]

/-- Witness for `markov_gate_below_point_nine`: score 1 normalises to 1/4. -/
theorem markov_gate_below_point_nine_witness :
    map_markov_sequence { actions := ["login"], score := some 1 } = [] :=
  markov_gate_below_point_nine _ (by norm_num [markovAnomalyScore])

/-- C3 counterexample: on a record with `total_epochs == 0` the division in
`map_som_results` raises `ZeroDivisionError` (modelled by `none`), so the
evaluation is not total — the zero case is not guarded. -/
theorem som_zero_epochs_faults :
    zeroEpochRecord.total_epochs = some 0 ∧ map_som_results zeroEpochRecord = none :=
  ⟨rfl, rfl⟩

/-- C3 amended: `total_epochs` defaults to 1 only when absent; on every record
whose `total_epochs` is not a present zero, the metric is
`attack_score / total_epochs` and `map_som_results` evaluates normally. -/
theorem som_metric_total_on_nonzero_epochs (r : SomRecord)
    (h : r.total_epochs ≠ some 0) :
    somAnomalyMetric r = some (r.attack_score.getD 0 / r.total_epochs.getD 1) ∧
    (map_som_results r).isSome := by
  have htot : r.total_epochs.getD 1 ≠ 0 := by
    cases hte : r.total_epochs with
    | none => simp
    | some t =>
      simp only [Option.getD_some]
      intro ht0
      exact h (by rw [hte, ht0])
  have hm : somAnomalyMetric r = some (r.attack_score.getD 0 / r.total_epochs.getD 1) := by
    simp only [somAnomalyMetric]
    rw [if_neg htot]
  refine ⟨hm, ?_⟩
  simp only [map_som_results, hm]
  rfl

/-- Witness for `som_metric_total_on_nonzero_epochs` at `total_epochs = 2`. -/
theorem som_metric_total_on_nonzero_epochs_witness :
    somAnomalyMetric { attack_score := some 1, total_epochs := some 2 } =
      some ((({ attack_score := some 1, total_epochs := some 2 } : SomRecord).attack_score.getD 0) /
        (({ attack_score := some 1, total_epochs := some 2 } : SomRecord).total_epochs.getD 1)) ∧
    (map_som_results { attack_score := some 1, total_epochs := some 2 }).isSome :=
  som_metric_total_on_nonzero_epochs _ (by decide)

/-- C8 counterexample: a report file that exists and is non-empty but whose
read raises an error other than `FileNotFoundError`/`JSONDecodeError`
(e.g. `PermissionError`) is not caught by `load_existing_report`: the
exception escapes and the run fails, so loading is not failure-proof for
every file state. -/
theorem load_report_read_fault_uncaught :
    load_existing_report ReportFileState.readFault = none := rfl

/-- C8 amended: `load_existing_report` returns the parsed array when the file
exists, is non-empty and parses; it returns an empty report when the file is
missing, empty, or fails JSON decoding; only a read error outside those two
caught exception classes escapes. -/
theorem load_report_graceful_otherwise (s : ReportFileState)
    (h : s ≠ ReportFileState.readFault) :
    (load_existing_report s).isSome ∧
    (∀ l, s = ReportFileState.parsed l → load_existing_report s = some l) ∧
    ((s = ReportFileState.missing ∨ s = ReportFileState.sizeZero ∨
        s = ReportFileState.invalidJson) → load_existing_report s = some []) := by
  cases s <;> simp_all [load_existing_report]

/-- Witness for `load_report_graceful_otherwise` at a corrupt report file. -/
theorem load_report_graceful_otherwise_witness :
    load_existing_report ReportFileState.invalidJson = some [] :=
  (load_report_graceful_otherwise ReportFileState.invalidJson (by simp)).2.2
    (Or.inr (Or.inr rfl))

/-- C7: the merge tail rewrites the report file only when the in-memory report
strictly grew past its length at load time; a completed run that appended no
new detection entries performs no write at all, so with no new qualifying
records the persisted file is untouched and merging is idempotent across
runs. -/
theorem merger_writes_only_on_growth (loaded : List DetectionEntry)
    (m : List SequenceRecord) (s : List SomRecord) :
    (∀ final, mergeRun loaded m s = some (some final) → loaded.length < final.length) ∧
    (processMarkovEntries m = [] ∧ processSomRun s = ([], false) →
      mergeRun loaded m s = some none) := by
  constructor
  · intro final hf
    simp only [mergeRun] at hf
    rcases hsom : processSomRun s with ⟨es, crashed⟩
    rw [hsom] at hf
    cases crashed with
    | true => simp at hf
    | false =>
      simp only [Bool.false_eq_true, if_false] at hf
      by_cases hlen : loaded.length < (loaded ++ processMarkovEntries m ++ es).length
      · rw [if_pos hlen] at hf
        obtain rfl : loaded ++ processMarkovEntries m ++ es = final := by
          simpa using hf
        exact hlen
      · rw [if_neg hlen] at hf
        simp at hf
  · rintro ⟨h1, h2⟩
    simp [mergeRun, h1, h2]

/-- Witness for `merger_writes_only_on_growth`: an empty run does not write. -/
theorem merger_writes_only_on_growth_witness :
    mergeRun [] [] [] = some none :=
  (merger_writes_only_on_growth [] [] []).2 ⟨rfl, rfl⟩

/-- C5: the TA0009 "Collection" fallback (fixed confidence 0.55) is in the
output of `map_markov_sequence` exactly when the anomaly score is 1.0 and
neither the suspicious-login rule nor the repetitive-action rule fired. -/
theorem markov_fallback_iff (r : SequenceRecord) :
    fallbackTechnique ∈ map_markov_sequence r ↔
      (markovAnomalyScore r.score = 1 ∧ loginFires (getActions r) = false ∧
        repetitiveFires (getActions r) = false) := by
  simp only [map_markov_sequence, mapMarkovGeneric]
  by_cases hgate : markovAnomalyScore r.score < 9/10
  · rw [if_pos hgate]
    simp only [List.not_mem_nil, false_iff, not_and]
    intro h1
    exact absurd hgate (by rw [h1]; norm_num)
  · rw [if_neg hgate]
    cases hl : loginFires (getActions r) <;> cases hr : repetitiveFires (getActions r) <;>
      by_cases ha : markovAnomalyScore r.score = 1 <;>
        simp [ha, loginTechnique, repTechnique, fallbackTechnique]

/-- Membership in the sequence-source rule output forces the gate to have
passed and the match to be one of the three rule matches. -/
theorem mem_markov_output (r : SequenceRecord) (t : TechniqueMatch)
    (ht : t ∈ map_markov_sequence r) :
    ¬ markovAnomalyScore r.score < 9/10 ∧
    (t = loginTechnique (markovAnomalyScore r.score) ∨
     t = repTechnique (markovAnomalyScore r.score) ∨
     t = fallbackTechnique) := by
  simp only [map_markov_sequence, mapMarkovGeneric] at ht
  by_cases hgate : markovAnomalyScore r.score < 9/10
  · rw [if_pos hgate] at ht
    simp at ht
  · rw [if_neg hgate] at ht
    refine ⟨hgate, ?_⟩
    cases hl : loginFires (getActions r) <;> cases hr : repetitiveFires (getActions r) <;>
      rw [hl, hr] at ht <;> simp at ht <;> tauto

/-- C10: because the 0.9 gate precedes every sequence-source rule, the `min`
in each confidence formula is vacuous: a suspicious-login match always has
confidence exactly 0.7 and a repetitive-action match exactly 0.6. -/
theorem markov_rule_confidences_vacuous_min (r : SequenceRecord) (t : TechniqueMatch)
    (ht : t ∈ map_markov_sequence r) :
    (t.rule_matched = "markov_suspicious_login_pattern" → t.confidence = 7/10) ∧
    (t.rule_matched = "markov_repetitive_action_pattern" → t.confidence = 6/10) := by
  obtain ⟨hgate, hcases⟩ := mem_markov_output r t ht
  have hge : (9/10 : ℚ) ≤ markovAnomalyScore r.score := not_lt.mp hgate
  rcases hcases with rfl | rfl | rfl
  · refine ⟨fun _ => ?_, fun hrm => ?_⟩
    · show min (7/10 : ℚ) (markovAnomalyScore r.score) = 7/10
      exact min_eq_left (by linarith)
    · simp [loginTechnique] at hrm
  · refine ⟨fun hrm => ?_, fun _ => ?_⟩
    · simp [repTechnique] at hrm
    · show min (6/10 : ℚ) (markovAnomalyScore r.score) = 6/10
      exact min_eq_left (by linarith)
  · refine ⟨fun hrm => ?_, fun hrm => ?_⟩ <;> simp [fallbackTechnique] at hrm

/-- On the one-action record `["login"]` with score 0, the rule engine
produces exactly the suspicious-login match. -/
theorem map_markov_login_zero :
    map_markov_sequence loginZeroRecord = [loginTechnique 1] := by
  have hl : loginFires ["login"] = true := by decide
  have hr : repetitiveFires ["login"] = false := by decide
  have hact : getActions loginZeroRecord = ["login"] := rfl
  have ha : markovAnomalyScore loginZeroRecord.score = 1 := by
    norm_num [markovAnomalyScore, loginZeroRecord]
  simp only [map_markov_sequence, mapMarkovGeneric, hact, ha, hl, hr]
  norm_num

/-- Witness for `markov_rule_confidences_vacuous_min` on a login record. -/
theorem markov_rule_confidences_vacuous_min_witness :
    (loginTechnique 1).confidence = 7/10 :=
  (markov_rule_confidences_vacuous_min loginZeroRecord (loginTechnique 1)
    (by rw [map_markov_login_zero]; exact List.mem_singleton_self _)).1 rfl

/-- On a record whose `total_epochs` is not a present zero, the SOM metric is
the plain quotient of the defaulted fields. -/
theorem somAnomalyMetric_eq (r : SomRecord) (h : r.total_epochs ≠ some 0) :
    somAnomalyMetric r = some (r.attack_score.getD 0 / r.total_epochs.getD 1) := by
  have htot : r.total_epochs.getD 1 ≠ 0 := by
    cases hte : r.total_epochs with
    | none => simp
    | some t =>
      simp only [Option.getD_some]
      intro ht0
      exact h (by rw [hte, ht0])
  simp only [somAnomalyMetric]
  rw [if_neg htot]

/-- C6 counterexample: this record satisfies `flagged_epochs == total_epochs`
and `attack_score == 0`, yet `map_som_results` produces no T1090 match — it
raises `ZeroDivisionError` (modelled by `none`) before any rule runs, so the
claimed equivalence fails on it. -/
theorem som_proxy_rule_fails_at_zero_epochs :
    alwaysFlaggedZeroEpochs.flagged_epochs.getD 0 = alwaysFlaggedZeroEpochs.total_epochs.getD 1 ∧
    alwaysFlaggedZeroEpochs.attack_score.getD 0 = 0 ∧
    map_som_results alwaysFlaggedZeroEpochs = none :=
  ⟨rfl, rfl, rfl⟩

/-- C6 amended: on every record `map_som_results` evaluates without fault
(`total_epochs` not a present zero), the T1090 "Proxy" match — with its fixed
confidence 0.65, independent of all other fields and of the other rules — is
produced exactly when `flagged_epochs == total_epochs` and
`attack_score == 0`. -/
theorem som_proxy_rule_iff (r : SomRecord) (h : r.total_epochs ≠ some 0) :
    ∃ ts, map_som_results r = some ts ∧
      (proxyTechnique ∈ ts ↔
        (r.flagged_epochs.getD 0 = r.total_epochs.getD 1 ∧ r.attack_score.getD 0 = 0)) := by
  have hm := somAnomalyMetric_eq r h
  simp only [map_som_results, hm]
  refine ⟨_, rfl, ?_⟩
  by_cases h2 : r.flagged_epochs.getD 0 = r.total_epochs.getD 1 ∧ r.attack_score.getD 0 = 0
  · refine iff_of_true ?_ h2
    rw [if_pos h2]
    simp
  · refine iff_of_false ?_ h2
    rw [if_neg h2]
    simp only [List.append_nil, List.nil_append]
    intro hmem
    rcases List.mem_append.mp hmem with h1 | h3
    · split at h1 <;> simp [proxyTechnique, somHighTechnique] at h1
    · split at h3 <;> simp [proxyTechnique, somMixedTechnique] at h3

/-- Witness for `som_proxy_rule_iff` at an always-flagged, zero-attack
record with three epochs. -/
theorem som_proxy_rule_iff_witness :
    ∃ ts, map_som_results
        { attack_score := some 0, total_epochs := some 3, flagged_epochs := some 3 } = some ts ∧
      (proxyTechnique ∈ ts ↔
        ((({ attack_score := some 0, total_epochs := some 3, flagged_epochs := some 3 } :
            SomRecord)).flagged_epochs.getD 0 =
            (({ attack_score := some 0, total_epochs := some 3, flagged_epochs := some 3 } :
            SomRecord)).total_epochs.getD 1 ∧
          (({ attack_score := some 0, total_epochs := some 3, flagged_epochs := some 3 } :
            SomRecord)).attack_score.getD 0 = 0)) :=
  som_proxy_rule_iff _ (by decide)

/-- Every entry the Markov reporting loop emits carries the non-empty match
list that justified it. -/
theorem processMarkovAux_entries_nonempty (i : ℕ)
    (l : List (String × ℚ × SequenceRecord)) :
    ∀ e ∈ processMarkovAux i l, e.detected_techniques ≠ [] := by
  induction l generalizing i with
  | nil => intro e he; simp [processMarkovAux] at he
  | cons hd tl ih =>
    obtain ⟨u, risk, data⟩ := hd
    intro e he
    by_cases hts : map_markov_sequence data = []
    · simp only [processMarkovAux] at he
      rw [if_pos hts] at he
      exact ih (i + 1) e he
    · simp only [processMarkovAux] at he
      rw [if_neg hts] at he
      rcases List.mem_cons.mp he with rfl | hmem
      · exact hts
      · exact ih (i + 1) e hmem

/-- Every entry the SOM reporting loop emits carries the non-empty match list
that justified it. -/
theorem processSomAux_entries_nonempty (i : ℕ) (l : List SomRecord) :
    ∀ e ∈ (processSomAux i l).1, e.detected_techniques ≠ [] := by
  induction l generalizing i with
  | nil => intro e he; simp [processSomAux] at he
  | cons r tl ih =>
    intro e he
    rcases hm : map_som_results r with _ | ts
    · simp only [processSomAux, hm] at he
      simp at he
    · simp only [processSomAux, hm] at he
      by_cases hts : ts = []
      · rw [if_pos hts] at he
        exact ih (i + 1) e he
      · rw [if_neg hts] at he
        rcases List.mem_cons.mp he with rfl | hmem
        · exact hts
        · exact ih (i + 1) e hmem

/-- C9: every detection entry appended by either processing step has a
non-empty `detected_techniques` sequence — an entry only exists when the rule
engine produced at least one match. -/
theorem detection_entries_nonempty (ms : List SequenceRecord) (ss : List SomRecord) :
    (∀ e ∈ processMarkovEntries ms, e.detected_techniques ≠ []) ∧
    (∀ e ∈ (processSomRun ss).1, e.detected_techniques ≠ []) :=
  ⟨processMarkovAux_entries_nonempty 0 (reduceBatch ms),
    processSomAux_entries_nonempty 0 ss⟩

/-- On a one-record Markov batch with a login action and score 0, processing
appends exactly one detection entry. -/
theorem processMarkov_login_example :
    processMarkovEntries [loginZeroRecord] =
      [⟨"Markov_User_1_TopRisk", "u", "markov", [loginTechnique 1]⟩] := by
  have hred : reduceBatch [loginZeroRecord] =
      [("u", calculate_risk_score loginZeroRecord, loginZeroRecord)] := rfl
  have hid : markovSeqId 0 = "Markov_User_1_TopRisk" := by decide
  simp only [processMarkovEntries, hred, processMarkovAux, map_markov_login_zero]
  rw [if_neg (by simp : ¬ ([loginTechnique 1] : List TechniqueMatch) = [])]
  rw [hid]

/-- Witness for `detection_entries_nonempty` on a one-record Markov batch. -/
theorem detection_entries_nonempty_witness :
    (⟨"Markov_User_1_TopRisk", "u", "markov", [loginTechnique 1]⟩ :
      DetectionEntry).detected_techniques ≠ [] :=
  (detection_entries_nonempty [loginZeroRecord] []).1 _
    (by rw [processMarkov_login_example]; exact List.mem_singleton_self _)

/-- Looking up the key just assigned returns the assigned value. -/
theorem dictFind_dictSet_self (u : String) (v : ℚ × SequenceRecord)
    (m : List (String × ℚ × SequenceRecord)) :
    dictFind u (dictSet u v m) = some v := by
  induction m with
  | nil => simp [dictFind, dictSet]
  | cons hd tl ih =>
    obtain ⟨k, w⟩ := hd
    by_cases hk : k = u
    · simp [dictFind, dictSet, hk]
    · simp only [dictSet, if_neg hk, dictFind]
      exact ih

/-- Assignment to one key does not change the lookup of another key. -/
theorem dictFind_dictSet_ne (u u' : String) (h : u' ≠ u) (v : ℚ × SequenceRecord)
    (m : List (String × ℚ × SequenceRecord)) :
    dictFind u' (dictSet u v m) = dictFind u' m := by
  induction m with
  | nil =>
    simp only [dictSet, dictFind]
    rw [if_neg (fun hc : u = u' => h hc.symm)]
  | cons hd tl ih =>
    obtain ⟨k, w⟩ := hd
    by_cases hk : k = u
    · subst hk
      simp only [dictSet, if_pos rfl, dictFind]
      rw [if_neg (fun hc : k = u' => h hc.symm), if_neg (fun hc : k = u' => h hc.symm)]
    · simp only [dictSet, if_neg hk, dictFind]
      by_cases hk' : k = u'
      · rw [if_pos hk', if_pos hk']
      · rw [if_neg hk', if_neg hk']
        exact ih

/-- A key is absent exactly when `dictFind` misses. -/
theorem dictFind_eq_none_iff (u : String) (m : List (String × ℚ × SequenceRecord)) :
    dictFind u m = none ↔ u ∉ m.map Prod.fst := by
  induction m with
  | nil => simp [dictFind]
  | cons hd tl ih =>
    obtain ⟨k, w⟩ := hd
    by_cases hk : k = u
    · subst hk
      simp [dictFind, ih]
    · simp only [dictFind, if_neg hk, List.map_cons, List.mem_cons]
      rw [ih]
      constructor
      · rintro hn (rfl | hmem)
        · exact hk rfl
        · exact hn hmem
      · intro hn hmem
        exact hn (Or.inr hmem)

/-- Assignment to a present key keeps the key sequence unchanged. -/
theorem dictSet_keys_present (u : String) (v : ℚ × SequenceRecord)
    (m : List (String × ℚ × SequenceRecord)) (h : ¬ dictFind u m = none) :
    (dictSet u v m).map Prod.fst = m.map Prod.fst := by
  induction m with
  | nil => exact absurd rfl h
  | cons hd tl ih =>
    obtain ⟨k, w⟩ := hd
    by_cases hk : k = u
    · simp [dictSet, hk]
    · simp only [dictFind, if_neg hk] at h
      simp only [dictSet, if_neg hk, List.map_cons]
      rw [ih h]

/-- Assignment to an absent key appends it at the end of the key sequence. -/
theorem dictSet_keys_new (u : String) (v : ℚ × SequenceRecord)
    (m : List (String × ℚ × SequenceRecord)) (h : dictFind u m = none) :
    (dictSet u v m).map Prod.fst = m.map Prod.fst ++ [u] := by
  induction m with
  | nil => simp [dictSet]
  | cons hd tl ih =>
    obtain ⟨k, w⟩ := hd
    by_cases hk : k = u
    · rw [dictFind, if_pos hk] at h
      exact absurd h (by simp)
    · rw [dictFind, if_neg hk] at h
      simp only [dictSet, if_neg hk, List.map_cons, List.cons_append]
      rw [ih h]

/-- A record with an absent user identifier leaves the state untouched. -/
theorem reduceStep_user_none (m : List (String × ℚ × SequenceRecord)) (r : SequenceRecord)
    (h : r.user_id = none) : reduceStep m r = m := by
  simp [reduceStep, h]

/-- A record with an empty-string user identifier leaves the state
untouched. -/
theorem reduceStep_user_empty (m : List (String × ℚ × SequenceRecord)) (r : SequenceRecord)
    (h : r.user_id = some "") : reduceStep m r = m := by
  simp [reduceStep, h]

/-- A record of an unseen user is inserted with its risk score. -/
theorem reduceStep_new (m : List (String × ℚ × SequenceRecord)) (r : SequenceRecord)
    (u : String) (h : r.user_id = some u) (hu : ¬ u = "") (hf : dictFind u m = none) :
    reduceStep m r = dictSet u (calculate_risk_score r, r) m := by
  simp [reduceStep, h, hu, hf]

/-- A record strictly riskier than the stored best replaces it. -/
theorem reduceStep_update (m : List (String × ℚ × SequenceRecord)) (r : SequenceRecord)
    (u : String) (best : ℚ × SequenceRecord) (h : r.user_id = some u) (hu : ¬ u = "")
    (hf : dictFind u m = some best) (hlt : best.1 < calculate_risk_score r) :
    reduceStep m r = dictSet u (calculate_risk_score r, r) m := by
  simp [reduceStep, h, hu, hf, hlt]

/-- A record not strictly riskier than the stored best is discarded. -/
theorem reduceStep_keep (m : List (String × ℚ × SequenceRecord)) (r : SequenceRecord)
    (u : String) (best : ℚ × SequenceRecord) (h : r.user_id = some u) (hu : ¬ u = "")
    (hf : dictFind u m = some best) (hlt : ¬ best.1 < calculate_risk_score r) :
    reduceStep m r = m := by
  simp [reduceStep, h, hu, hf, hlt]

/-- A reduction step keeps the per-user keys free of duplicates. -/
theorem reduceStep_keys_nodup (m : List (String × ℚ × SequenceRecord)) (r : SequenceRecord)
    (h : (m.map Prod.fst).Nodup) : ((reduceStep m r).map Prod.fst).Nodup := by
  cases hr : r.user_id with
  | none => rw [reduceStep_user_none m r hr]; exact h
  | some u =>
    by_cases hu : u = ""
    · subst hu
      rw [reduceStep_user_empty m r hr]; exact h
    · cases hf : dictFind u m with
      | none =>
        rw [reduceStep_new m r u hr hu hf, dictSet_keys_new u _ m hf]
        refine List.Nodup.append h (List.nodup_singleton u) ?_
        intro a ha hmem
        rcases List.mem_singleton.mp hmem with rfl
        exact absurd ha ((dictFind_eq_none_iff a m).mp hf)
      | some best =>
        by_cases hlt : best.1 < calculate_risk_score r
        · rw [reduceStep_update m r u best hr hu hf hlt,
            dictSet_keys_present u _ m (by simp [hf])]
          exact h
        · rw [reduceStep_keep m r u best hr hu hf hlt]; exact h

/-- The key invariant carried through the whole fold. -/
theorem foldl_reduceStep_keys_nodup (recs : List SequenceRecord)
    (m : List (String × ℚ × SequenceRecord)) (h : (m.map Prod.fst).Nodup) :
    (((recs.foldl reduceStep m)).map Prod.fst).Nodup := by
  induction recs generalizing m with
  | nil => exact h
  | cons r tl ih => exact ih _ (reduceStep_keys_nodup m r h)

/-- A record with a falsy user identifier leaves the reduction state
untouched. -/
theorem reduceStep_dropped (m : List (String × ℚ × SequenceRecord)) (r : SequenceRecord)
    (h : r.user_id = none ∨ r.user_id = some "") : reduceStep m r = m := by
  rcases h with h | h <;> simp [reduceStep, h]

/-- The whole reduction ignores records with a falsy user identifier: folding
over the batch equals folding over the batch with those records removed. -/
theorem foldl_reduceStep_filter (recs : List SequenceRecord)
    (m : List (String × ℚ × SequenceRecord)) :
    recs.foldl reduceStep m =
      (recs.filter (fun r => decide (r.user_id ≠ none ∧ r.user_id ≠ some ""))).foldl
        reduceStep m := by
  induction recs generalizing m with
  | nil => rfl
  | cons r tl ih =>
    by_cases h : r.user_id ≠ none ∧ r.user_id ≠ some ""
    · rw [List.filter_cons_of_pos (by simpa using h), List.foldl_cons, List.foldl_cons, ih]
    · have hd : r.user_id = none ∨ r.user_id = some "" := by
        rcases not_and_or.mp h with h' | h'
        · exact Or.inl (not_not.mp h')
        · exact Or.inr (not_not.mp h')
      rw [List.filter_cons_of_neg (by simpa using h), List.foldl_cons,
        reduceStep_dropped m r hd, ih]

/-- A reduction step seen through the lens of one fixed (non-empty) user key:
records of other users do not affect it, a record of that user applies
`stepU`. -/
theorem dictFind_reduceStep (m : List (String × ℚ × SequenceRecord)) (r : SequenceRecord)
    (u : String) (hu : u ≠ "") :
    dictFind u (reduceStep m r) =
      if r.user_id = some u then stepU (dictFind u m) r else dictFind u m := by
  cases hr : r.user_id with
  | none =>
    rw [reduceStep_user_none m r hr, if_neg (by simp)]
  | some u' =>
    by_cases hu' : u' = ""
    · subst hu'
      rw [reduceStep_user_empty m r hr,
        if_neg (fun hc : some "" = some u => hu (by injection hc with hc; exact hc.symm))]
    · by_cases heq : u' = u
      · subst heq
        rw [if_pos rfl]
        cases hf : dictFind u' m with
        | none =>
          rw [reduceStep_new m r u' hr hu' hf, dictFind_dictSet_self]
          simp [stepU, hf]
        | some best =>
          by_cases hlt : best.1 < calculate_risk_score r
          · rw [reduceStep_update m r u' best hr hu' hf hlt, dictFind_dictSet_self]
            simp [stepU, hf, hlt]
          · rw [reduceStep_keep m r u' best hr hu' hf hlt, hf]
            simp [stepU, hlt]
      · rw [if_neg (fun hc : some u' = some u => heq (by injection hc))]
        cases hf : dictFind u' m with
        | none =>
          rw [reduceStep_new m r u' hr hu' hf]
          exact dictFind_dictSet_ne u' u (fun hc => heq hc.symm) _ m
        | some best =>
          by_cases hlt : best.1 < calculate_risk_score r
          · rw [reduceStep_update m r u' best hr hu' hf hlt]
            exact dictFind_dictSet_ne u' u (fun hc => heq hc.symm) _ m
          · rw [reduceStep_keep m r u' best hr hu' hf hlt]

/-- The whole fold seen through the lens of one fixed (non-empty) user key. -/
theorem dictFind_foldl_reduceStep (recs : List SequenceRecord)
    (m : List (String × ℚ × SequenceRecord)) (u : String) (hu : u ≠ "") :
    dictFind u (recs.foldl reduceStep m) =
      (userRecords u recs).foldl stepU (dictFind u m) := by
  induction recs generalizing m with
  | nil => rfl
  | cons r tl ih =>
    rw [List.foldl_cons, ih (reduceStep m r)]
    by_cases h : r.user_id = some u
    · simp only [userRecords]
      rw [List.filter_cons_of_pos (by simpa using h), List.foldl_cons,
        dictFind_reduceStep m r u hu, if_pos h]
    · simp only [userRecords]
      rw [List.filter_cons_of_neg (by simpa using h),
        dictFind_reduceStep m r u hu, if_neg h]

/-- Tracking one user via `stepU` from a seen state computes the running
first-encountered maximum of the risk scores. -/
theorem foldl_stepU_some (l : List SequenceRecord) (br : SequenceRecord) :
    l.foldl stepU (some (calculate_risk_score br, br)) =
      some (calculate_risk_score (l.foldl
          (fun best x => if calculate_risk_score best < calculate_risk_score x then x else best)
          br),
        l.foldl
          (fun best x => if calculate_risk_score best < calculate_risk_score x then x else best)
          br) := by
  induction l generalizing br with
  | nil => rfl
  | cons x tl ih =>
    rw [List.foldl_cons, List.foldl_cons]
    by_cases h : calculate_risk_score br < calculate_risk_score x
    · rw [show stepU (some (calculate_risk_score br, br)) x = some (calculate_risk_score x, x)
        from by simp [stepU, h]]
      rw [if_pos h]
      exact ih x
    · rw [show stepU (some (calculate_risk_score br, br)) x =
          some (calculate_risk_score br, br) from by simp [stepU, h]]
      rw [if_neg h]
      exact ih br

/-- Tracking one user via `stepU` from the unseen state yields exactly the
record the spec designates. -/
theorem foldl_stepU_none (l : List SequenceRecord) :
    l.foldl stepU none = (specRetained l).map (fun r => (calculate_risk_score r, r)) := by
  cases l with
  | nil => rfl
  | cons r rs =>
    rw [List.foldl_cons]
    show rs.foldl stepU (some (calculate_risk_score r, r)) = _
    rw [foldl_stepU_some]
    rfl

/-- A record with a falsy user identifier never creates the empty-string key
either. -/
theorem dictFind_empty_foldl (recs : List SequenceRecord)
    (m : List (String × ℚ × SequenceRecord)) (h : dictFind "" m = none) :
    dictFind "" (recs.foldl reduceStep m) = none := by
  induction recs generalizing m with
  | nil => exact h
  | cons r tl ih =>
    refine ih (reduceStep m r) ?_
    cases hr : r.user_id with
    | none => rw [reduceStep_user_none m r hr]; exact h
    | some u =>
      by_cases hu : u = ""
      · subst hu
        rw [reduceStep_user_empty m r hr]; exact h
      · cases hf : dictFind u m with
        | none =>
          rw [reduceStep_new m r u hr hu hf, dictFind_dictSet_ne u "" (Ne.symm hu) _ m]
          exact h
        | some best =>
          by_cases hlt : best.1 < calculate_risk_score r
          · rw [reduceStep_update m r u best hr hu hf hlt,
              dictFind_dictSet_ne u "" (Ne.symm hu) _ m]
            exact h
          · rw [reduceStep_keep m r u best hr hu hf hlt]; exact h

/-- C4: the per-user risk reducer keeps at most one entry per user identifier
(no duplicate keys), silently ignores every record whose user identifier is
absent or empty, and for each user retains exactly the first-encountered
record of strictly maximal risk score. -/
theorem per_user_reducer_spec (recs : List SequenceRecord) :
    ((reduceBatch recs).map Prod.fst).Nodup ∧
    reduceBatch recs =
      reduceBatch (recs.filter (fun r => decide (r.user_id ≠ none ∧ r.user_id ≠ some ""))) ∧
    dictFind "" (reduceBatch recs) = none ∧
    (∀ u : String, u ≠ "" →
      dictFind u (reduceBatch recs) =
        (specRetained (userRecords u recs)).map (fun r => (calculate_risk_score r, r))) := by
  refine ⟨foldl_reduceStep_keys_nodup recs [] (by simp),
    foldl_reduceStep_filter recs [], dictFind_empty_foldl recs [] rfl, ?_⟩
  intro u hu
  rw [reduceBatch, dictFind_foldl_reduceStep recs [] u hu]
  show (userRecords u recs).foldl stepU none = _
  exact foldl_stepU_none _

/-- Witness for `per_user_reducer_spec` on a one-record batch. -/
theorem per_user_reducer_spec_witness :
    dictFind "u" (reduceBatch [loginZeroRecord]) =
      (specRetained (userRecords "u" [loginZeroRecord])).map
        (fun r => (calculate_risk_score r, r)) :=
  (per_user_reducer_spec [loginZeroRecord]).2.2.2 "u" (by decide)
